import Mathlib

/-!
Shallow embedding of the smart-sort flashcard scheduler of the
RussianVocabMemory repository (component `FlashcardMode`): the
classifier, workload gate, priority weighter, group selector, item
picker and the session controller (`selectNextSmartCard`,
`handleNext`, the initialization effect and the render-level finished
condition).  `Math.random()` draws are passed in as rational
parameters `r1`, `r2` in `[0, 1)`; the localStorage stats object is an
association list with JS-object update semantics (replace in place,
else append); the ES2019 stable in-place sort is modelled by the
stable `List.insertionSort`.
-/

namespace RuVocab

/-- Grading decision, the `difficulty` field of a stored record. -/
inductive Grade where
  | easy
  | hard
deriving DecidableEq, Repr

/-- A performance record as written to localStorage by `handleNext`:
`{ difficulty, lastReviewed: Date.now(), streak }`. -/
structure Stat where
  difficulty : Grade
  lastReviewed : Int
  streak : Int
deriving DecidableEq, Repr

/-- A learnable item; only the scheduling-relevant fields of `WordItem`
(classification and sorting use only `lemma`). -/
structure WordItem where
  lemma' : String
  translation : String
deriving DecidableEq, Repr

/-- The stats object parsed from localStorage (`getStats`): keys to records,
with JS object key order. -/
abbrev Stats := List (String × Stat)

/-- Property access `stats[key]` on the parsed stats object. -/
def lookupStat (stats : Stats) (key : String) : Option Stat :=
  (stats.find? (fun p => p.1 == key)).map (fun p => p.2)

/-- Property assignment `stats[key] = v` on a JS object: replace the
binding in place if the key is present, else append it. -/
def setStat (stats : Stats) (key : String) (v : Stat) : Stats :=
  match stats with
  | [] => [(key, v)]
  | p :: rest => if p.1 == key then (key, v) :: rest else p :: setStat rest key v

/-- `getStorageKey`: the storage key `` `${direction}:${lemma}` ``. -/
def getStorageKey (direction : String) (lem : String) : String :=
  direction ++ ":" ++ lem

/-- The four scheduling groups (`type GroupType`). -/
inductive GroupType where
  | new
  | hard
  | learning
  | mastered
deriving DecidableEq, Repr

/-- Classification of an existing record, following the branch structure in
the bucketize loop of `selectNextSmartCard`:
`difficulty === 'hard' || streak === 0` is hard, else `streak < 3` is
learning, else mastered. -/
def classifyStat (s : Stat) : GroupType :=
  if s.difficulty = Grade.hard ∨ s.streak = 0 then GroupType.hard
  else if s.streak < 3 then GroupType.learning
  else GroupType.mastered

/-- Classification of an item: no record means new, otherwise classify the
record. -/
def classify (stats : Stats) (direction : String) (item : WordItem) : GroupType :=
  match lookupStat stats (getStorageKey direction item.lemma') with
  | none => GroupType.new
  | some s => classifyStat s

/-- The bucket of a group: the items pushed onto `groups[g]` by the
`items.forEach` loop, in pool order. -/
def bucket (items : List WordItem) (stats : Stats) (direction : String)
    (g : GroupType) : List WordItem :=
  items.filter (fun item => classify stats direction item == g)

/-- `activeLoadCount`: incremented once for every item classified hard or
learning during the bucketize loop. -/
def activeLoadCount (items : List WordItem) (stats : Stats) (direction : String) : Nat :=
  items.countP (fun item =>
    classify stats direction item == GroupType.hard ||
      classify stats direction item == GroupType.learning)

/-- The workload gate `isCapped = activeLoadCount >= learningThreshold`. -/
def isCapped (items : List WordItem) (stats : Stats) (direction : String)
    (learningThreshold : Int) : Bool :=
  learningThreshold ≤ (activeLoadCount items stats direction : Int)

/-- The `groupLastPicked` record: one last-picked tick per group. -/
structure GroupTicks where
  new : Int
  hard : Int
  learning : Int
  mastered : Int
deriving DecidableEq, Repr

/-- Read `groupLastPicked[g]`. -/
def GroupTicks.get (t : GroupTicks) : GroupType → Int
  | GroupType.new => t.new
  | GroupType.hard => t.hard
  | GroupType.learning => t.learning
  | GroupType.mastered => t.mastered

/-- Functional update `{ ...prev, [g]: v }`. -/
def GroupTicks.set (t : GroupTicks) (g : GroupType) (v : Int) : GroupTicks :=
  match g with
  | GroupType.new => { t with new := v }
  | GroupType.hard => { t with hard := v }
  | GroupType.learning => { t with learning := v }
  | GroupType.mastered => { t with mastered := v }

/-- `baseWeights`: new is 0 when capped else 40; hard 100; learning 60;
mastered 5. -/
def baseWeight (capped : Bool) : GroupType → Int
  | GroupType.new => if capped then 0 else 40
  | GroupType.hard => 100
  | GroupType.learning => 60
  | GroupType.mastered => 5

/-- `finalWeights[g]` of the weighting loop: 0 for an empty bucket, 0 for
new while capped, else `base + max(0, tick - lastPicked) * STALENESS_BONUS`
with `STALENESS_BONUS = 2`. -/
def finalWeight (items : List WordItem) (stats : Stats) (direction : String)
    (capped : Bool) (tick : Int) (groupLastPicked : GroupTicks)
    (g : GroupType) : Int :=
  if bucket items stats direction g = [] then 0
  else if g = GroupType.new ∧ capped = true then 0
  else baseWeight capped g + max 0 (tick - groupLastPicked.get g) * 2

/-- `totalWeight`: the sum accumulated over `Object.keys(groups)` in literal
key order (new, hard, learning, mastered); the branches that skip the
accumulation set the weight to 0, so the sum over all four groups is the
accumulated value. -/
def totalWeight (items : List WordItem) (stats : Stats) (direction : String)
    (capped : Bool) (tick : Int) (groupLastPicked : GroupTicks) : Int :=
  finalWeight items stats direction capped tick groupLastPicked GroupType.new +
    finalWeight items stats direction capped tick groupLastPicked GroupType.hard +
    finalWeight items stats direction capped tick groupLastPicked GroupType.learning +
    finalWeight items stats direction capped tick groupLastPicked GroupType.mastered

/-- The cumulative-weight walk of the group selector: take the first group
whose weight exceeds the remaining pointer, else subtract and continue;
`selectedGroup` defaults to new when the walk falls through. -/
def selectGroupLoop (w : GroupType → Int) : List GroupType → ℚ → GroupType
  | [], _ => GroupType.new
  | g :: rest, p => if p < (w g : ℚ) then g else selectGroupLoop w rest (p - (w g : ℚ))

/-- The fixed walk order `['hard', 'learning', 'new', 'mastered']`. -/
def walkOrder : List GroupType :=
  [GroupType.hard, GroupType.learning, GroupType.new, GroupType.mastered]

/-- The sort key of the item picker's comparator:
`stats[getStorageKey(lemma)]?.lastReviewed || 0`. -/
def lastReviewedKey (stats : Stats) (direction : String) (item : WordItem) : Int :=
  ((lookupStat stats (getStorageKey direction item.lemma')).map Stat.lastReviewed).getD 0

/-- `candidates.sort((a, b) => timeA - timeB)`: stable ascending sort by
last-reviewed timestamp. -/
def sortedByLastReviewed (stats : Stats) (direction : String)
    (candidates : List WordItem) : List WordItem :=
  candidates.insertionSort
    (fun a b => lastReviewedKey stats direction a ≤ lastReviewedKey stats direction b)

/-- `Math.floor(Math.random() * poolSize)` with the draw passed in as `r2`. -/
def pickIndex (r2 : ℚ) (poolSize : Nat) : Nat :=
  (⌊r2 * (poolSize : ℚ)⌋).toNat

/-- Item picker step 6 of `selectNextSmartCard`: sort the candidates
ascending by last-reviewed, let `poolSize = Math.min(candidates.length, 3)`
and return `candidates[randomIndex]` (possibly undefined, hence `Option`). -/
def pickFromGroup (stats : Stats) (direction : String)
    (candidates : List WordItem) (r2 : ℚ) : Option WordItem :=
  (sortedByLastReviewed stats direction candidates).get? (pickIndex r2 (min candidates.length 3))

/-- The non-null result of `selectNextSmartCard`:
`{ item: candidates[randomIndex], group: selectedGroup }`; the item slot may
be undefined in JS, hence `Option`. -/
structure PickResult where
  item : Option WordItem
  group : GroupType
deriving DecidableEq, Repr

/-- `selectNextSmartCard`: bucketize, gate, weigh, pick a group by
cumulative weighted draw `r1 * totalWeight`, pick an item within it by
draw `r2`; null when the total weight is not positive. -/
def selectNextSmartCard (items : List WordItem) (stats : Stats) (direction : String)
    (learningThreshold : Int) (tick : Int) (groupLastPicked : GroupTicks)
    (r1 r2 : ℚ) : Option PickResult :=
  let capped := isCapped items stats direction learningThreshold
  let total := totalWeight items stats direction capped tick groupLastPicked
  if total ≤ 0 then none
  else
    let selectedGroup :=
      selectGroupLoop (finalWeight items stats direction capped tick groupLastPicked)
        walkOrder (r1 * (total : ℚ))
    let candidates := bucket items stats direction selectedGroup
    some { item := pickFromGroup stats direction candidates r2, group := selectedGroup }

/-- Session configuration: the post-filter pool, the review direction, the
workload threshold and the session limit (`none` is `'all'`). -/
structure Config where
  items : List WordItem
  direction : String
  learningThreshold : Int
  limit : Option Int
deriving Repr

/-- The React state of `FlashcardMode` that the scheduling core touches. -/
structure SessionState where
  currentCard : Option WordItem
  reviewedCount : Nat
  sessionFinished : Bool
  isWorkloadCapped : Bool
  tick : Int
  groupLastPicked : GroupTicks
  stats : Stats
deriving DecidableEq, Repr

/-- The stats-update block of `handleNext` for a given grading decision:
`newStreak = hard ? 0 : (currentStat?.streak || 0) + 1`, then write
`{ difficulty, lastReviewed: now, streak: newStreak }` under the key. -/
def gradeStat (stats : Stats) (key : String) (difficulty : Grade) (now : Int) : Stats :=
  let currentStreak := ((lookupStat stats key).map Stat.streak).getD 0
  let newStreak := if difficulty = Grade.hard then 0 else currentStreak + 1
  setStat stats key { difficulty := difficulty, lastReviewed := now, streak := newStreak }

/-- The session-limit test `limit !== 'all' && newCount >= limit`. -/
def limitReached (limit : Option Int) (newCount : Nat) : Bool :=
  match limit with
  | none => false
  | some l => l ≤ (newCount : Int)

/-- `handleNext` of the smart-sort strategy: no-op without a current card;
update stats when a grade was given; bump the reviewed counter; finish when
the limit is reached (before any tick advance or pick); otherwise advance
the tick, rerun the pick cycle, record the chosen group's tick, and either
present the new card or finish when the pick is null.  The workload-capped
flag is set inside the pick call. -/
def handleNext (cfg : Config) (difficulty : Option Grade) (now : Int)
    (r1 r2 : ℚ) (s : SessionState) : SessionState :=
  match s.currentCard with
  | none => s
  | some card =>
    let stats1 :=
      match difficulty with
      | some d => gradeStat s.stats (getStorageKey cfg.direction card.lemma') d now
      | none => s.stats
    let newCount := s.reviewedCount + 1
    if limitReached cfg.limit newCount then
      { s with stats := stats1, reviewedCount := newCount, sessionFinished := true }
    else
      let nextTick := s.tick + 1
      let capped := isCapped cfg.items stats1 cfg.direction cfg.learningThreshold
      match selectNextSmartCard cfg.items stats1 cfg.direction cfg.learningThreshold
          nextTick s.groupLastPicked r1 r2 with
      | some result =>
        { s with stats := stats1, reviewedCount := newCount, tick := nextTick,
                 isWorkloadCapped := capped, currentCard := result.item,
                 groupLastPicked := s.groupLastPicked.set result.group nextTick }
      | none =>
        { s with stats := stats1, reviewedCount := newCount, tick := nextTick,
                 isWorkloadCapped := capped, sessionFinished := true }

/-- The initialization effect for the smart-sort strategy: reset counters,
tick and last-picked ticks, run one pick cycle; a null pick leaves
`currentCard` null, a non-null pick installs the item and refreshes the
chosen group's last-picked tick to 0. -/
def initSession (cfg : Config) (stats : Stats) (r1 r2 : ℚ) : SessionState :=
  let base : SessionState :=
    { currentCard := none, reviewedCount := 0, sessionFinished := false,
      isWorkloadCapped := isCapped cfg.items stats cfg.direction cfg.learningThreshold,
      tick := 0, groupLastPicked := ⟨0, 0, 0, 0⟩, stats := stats }
  match selectNextSmartCard cfg.items stats cfg.direction cfg.learningThreshold
      0 ⟨0, 0, 0, 0⟩ r1 r2 with
  | some result =>
    { base with currentCard := result.item,
                groupLastPicked := GroupTicks.set ⟨0, 0, 0, 0⟩ result.group 0 }
  | none => base

/-- The render condition `!currentCard || sessionFinished` that shows the
Session Complete screen. -/
def showsFinished (s : SessionState) : Bool :=
  s.currentCard.isNone || s.sessionFinished

/-! ### Sample data used by concrete witnesses -/

/-- A sample item. -/
def cardA : WordItem := ⟨"a", "x"⟩

/-- A sample item. -/
def cardB : WordItem := ⟨"b", "y"⟩

/-- A sample item. -/
def cardC : WordItem := ⟨"c", "z"⟩

/-! ### Helper lemmas -/

theorem mem_bucket {items : List WordItem} {stats : Stats} {direction : String}
    {g : GroupType} {x : WordItem} :
    x ∈ bucket items stats direction g ↔ x ∈ items ∧ classify stats direction x = g := by
  simp [bucket, List.mem_filter]

theorem countP_or_of_disjoint (l : List WordItem) (p q : WordItem → Bool)
    (h : ∀ x, ¬(p x = true ∧ q x = true)) :
    l.countP (fun x => p x || q x) = l.countP p + l.countP q := by
  induction l with
  | nil => simp
  | cons a t ih =>
    have ha := h a
    simp only [List.countP_cons, ih]
    cases hp : p a <;> cases hq : q a <;> simp_all <;> omega

theorem activeLoadCount_eq (items : List WordItem) (stats : Stats) (direction : String) :
    activeLoadCount items stats direction =
      (bucket items stats direction GroupType.hard).length +
        (bucket items stats direction GroupType.learning).length := by
  rw [activeLoadCount,
    countP_or_of_disjoint _ _ _ (fun x => by simp [beq_iff_eq]; intro h1 h2; simp [h1] at h2)]
  simp [bucket, List.countP_eq_length_filter]

theorem lookupStat_setStat (stats : Stats) (key : String) (v : Stat) :
    lookupStat (setStat stats key v) key = some v := by
  induction stats with
  | nil => simp [setStat, lookupStat]
  | cons p rest ih =>
    by_cases h : p.1 == key
    · simp [setStat, h, lookupStat]
    · simp only [setStat, h, if_neg]
      simpa [lookupStat, List.find?, h] using ih

theorem finalWeight_nonneg (items : List WordItem) (stats : Stats) (direction : String)
    (capped : Bool) (tick : Int) (lp : GroupTicks) (g : GroupType) :
    0 ≤ finalWeight items stats direction capped tick lp g := by
  rw [finalWeight]
  split
  · exact le_refl 0
  · split
    · exact le_refl 0
    · have h1 : (0 : Int) ≤ baseWeight capped g := by
        cases g <;> cases capped <;> simp [baseWeight]
      have h2 : (0 : Int) ≤ max 0 (tick - lp.get g) * 2 :=
        mul_nonneg (le_max_left _ _) (by norm_num)
      exact add_nonneg h1 h2

theorem totalWeight_eq_walk_sum (items : List WordItem) (stats : Stats)
    (direction : String) (capped : Bool) (tick : Int) (lp : GroupTicks) :
    ((walkOrder.map (finalWeight items stats direction capped tick lp)).sum : Int) =
      totalWeight items stats direction capped tick lp := by
  simp [walkOrder, totalWeight]
  ring

theorem selectGroupLoop_pos (w : GroupType → Int) (l : List GroupType) :
    ∀ p : ℚ, 0 ≤ p → p < (((l.map w).sum : Int) : ℚ) → 0 < w (selectGroupLoop w l p) := by
  induction l with
  | nil =>
    intro p h0 hlt
    simp at hlt
    linarith
  | cons g rest ih =>
    intro p h0 hlt
    simp only [List.map_cons, List.sum_cons] at hlt
    push_cast at hlt
    simp only [selectGroupLoop]
    by_cases h : p < (w g : ℚ)
    · rw [if_pos h]
      exact_mod_cast lt_of_le_of_lt h0 h
    · rw [if_neg h]
      have hge := not_lt.mp h
      exact ih (p - (w g : ℚ)) (by linarith) (by push_cast; linarith)

theorem finalWeight_pos_bucket_ne {items : List WordItem} {stats : Stats}
    {direction : String} {capped : Bool} {tick : Int} {lp : GroupTicks} {g : GroupType}
    (h : 0 < finalWeight items stats direction capped tick lp g) :
    bucket items stats direction g ≠ [] := by
  intro hemp
  rw [finalWeight, if_pos hemp] at h
  exact lt_irrefl 0 h

theorem pickIndex_lt (r : ℚ) (n : Nat) (h0 : 0 ≤ r) (h1 : r < 1) (hn : 0 < n) :
    pickIndex r n < n := by
  rw [pickIndex]
  have hn' : (0 : ℚ) < (n : ℚ) := by exact_mod_cast hn
  have hx : r * (n : ℚ) < (n : ℚ) := by nlinarith
  have h2 : (0 : ℚ) ≤ r * (n : ℚ) := mul_nonneg h0 (le_of_lt hn')
  have hf : ⌊r * (n : ℚ)⌋ < (n : Int) := Int.floor_lt.mpr (by exact_mod_cast hx)
  have hf0 : 0 ≤ ⌊r * (n : ℚ)⌋ := Int.floor_nonneg.mpr h2
  omega

theorem pickIndex_eq_iff (r : ℚ) (n i : Nat) (h0 : 0 ≤ r) :
    pickIndex r n = i ↔ ((i : ℚ) ≤ r * (n : ℚ) ∧ r * (n : ℚ) < (i : ℚ) + 1) := by
  have h2 : (0 : ℚ) ≤ r * (n : ℚ) := mul_nonneg h0 (by positivity)
  have hf0 : 0 ≤ ⌊r * (n : ℚ)⌋ := Int.floor_nonneg.mpr h2
  rw [pickIndex]
  rw [show ((⌊r * (n : ℚ)⌋.toNat = i) ↔ ⌊r * (n : ℚ)⌋ = (i : Int)) from by omega]
  rw [Int.floor_eq_iff]
  push_cast
  exact Iff.rfl

theorem sorted_sortedByLastReviewed (stats : Stats) (direction : String)
    (candidates : List WordItem) :
    List.Sorted
      (fun a b => lastReviewedKey stats direction a ≤ lastReviewedKey stats direction b)
      (sortedByLastReviewed stats direction candidates) := by
  letI : IsTotal WordItem
      (fun a b => lastReviewedKey stats direction a ≤ lastReviewedKey stats direction b) :=
    ⟨fun a b => le_total _ _⟩
  letI : IsTrans WordItem
      (fun a b => lastReviewedKey stats direction a ≤ lastReviewedKey stats direction b) :=
    ⟨fun a b c hab hbc => le_trans hab hbc⟩
  exact List.sorted_insertionSort _ _

theorem length_sortedByLastReviewed (stats : Stats) (direction : String)
    (candidates : List WordItem) :
    (sortedByLastReviewed stats direction candidates).length = candidates.length :=
  List.length_insertionSort _ _

theorem mem_sortedByLastReviewed {stats : Stats} {direction : String}
    {candidates : List WordItem} {x : WordItem} :
    x ∈ sortedByLastReviewed stats direction candidates ↔ x ∈ candidates :=
  (List.perm_insertionSort _ _).mem_iff

theorem selected_weight_pos (items : List WordItem) (stats : Stats) (direction : String)
    (capped : Bool) (tick : Int) (lp : GroupTicks) (r1 : ℚ)
    (h0 : 0 ≤ r1) (h1 : r1 < 1)
    (ht : 0 < totalWeight items stats direction capped tick lp) :
    0 < finalWeight items stats direction capped tick lp
      (selectGroupLoop (finalWeight items stats direction capped tick lp) walkOrder
        (r1 * (totalWeight items stats direction capped tick lp : ℚ))) := by
  apply selectGroupLoop_pos
  · exact mul_nonneg h0 (by exact_mod_cast le_of_lt ht)
  · rw [totalWeight_eq_walk_sum]
    have ht' : (0 : ℚ) < (totalWeight items stats direction capped tick lp : ℚ) := by
      exact_mod_cast ht
    nlinarith

theorem pickFromGroup_mem (stats : Stats) (direction : String)
    (candidates : List WordItem) (r2 : ℚ)
    (hne : candidates ≠ []) (h0 : 0 ≤ r2) (h1 : r2 < 1) :
    ∃ it, pickFromGroup stats direction candidates r2 = some it ∧
      it ∈ (sortedByLastReviewed stats direction candidates).take (min candidates.length 3) ∧
      it ∈ candidates := by
  have hn : 0 < candidates.length := List.length_pos.mpr hne
  have hps : 0 < min candidates.length 3 := by omega
  have hidx : pickIndex r2 (min candidates.length 3) < min candidates.length 3 :=
    pickIndex_lt r2 _ h0 h1 hps
  have hlen : pickIndex r2 (min candidates.length 3) <
      (sortedByLastReviewed stats direction candidates).length := by
    rw [length_sortedByLastReviewed]
    omega
  refine ⟨(sortedByLastReviewed stats direction candidates).get ⟨_, hlen⟩, ?_, ?_, ?_⟩
  · exact List.get?_eq_get hlen
  · have hq : ((sortedByLastReviewed stats direction candidates).take
        (min candidates.length 3)).get? (pickIndex r2 (min candidates.length 3)) =
        some ((sortedByLastReviewed stats direction candidates).get ⟨_, hlen⟩) := by
      rw [List.get?_take hidx]
      exact List.get?_eq_get hlen
    exact List.get?_mem hq
  · exact mem_sortedByLastReviewed.mp (List.get_mem _ _ hlen)

/-! ### Claim theorems -/

/-- Claim C1: for every pool and store the classifier puts each item of the
pool into exactly one of the four groups (the buckets cover the pool and are
pairwise disjoint), and classification follows the table: no record is New;
`lastGrade == hard` or `streak == 0` is Hard; streak in `[1,2]` (and not
overridden by the Hard row) is Learning; `streak >= 3` is Mastered. -/
theorem classify_partitions (items : List WordItem) (stats : Stats) (direction : String) :
    (∀ x, x ∈ items ↔ ∃ g, x ∈ bucket items stats direction g) ∧
    (∀ x g g', x ∈ bucket items stats direction g → x ∈ bucket items stats direction g' →
      g = g') ∧
    (∀ x, lookupStat stats (getStorageKey direction x.lemma') = none →
      classify stats direction x = GroupType.new) ∧
    (∀ x s, lookupStat stats (getStorageKey direction x.lemma') = some s →
      (s.difficulty = Grade.hard ∨ s.streak = 0) →
      classify stats direction x = GroupType.hard) ∧
    (∀ x s, lookupStat stats (getStorageKey direction x.lemma') = some s →
      s.difficulty ≠ Grade.hard → (s.streak = 1 ∨ s.streak = 2) →
      classify stats direction x = GroupType.learning) ∧
    (∀ x s, lookupStat stats (getStorageKey direction x.lemma') = some s →
      s.difficulty ≠ Grade.hard → 3 ≤ s.streak →
      classify stats direction x = GroupType.mastered) := by
  refine ⟨fun x => ⟨fun hx => ⟨classify stats direction x, mem_bucket.mpr ⟨hx, rfl⟩⟩,
      fun ⟨g, hg⟩ => (mem_bucket.mp hg).1⟩,
    fun x g g' hg hg' => ?_, fun x hl => ?_, fun x s hl hs => ?_,
    fun x s hl hd hs => ?_, fun x s hl hd hs => ?_⟩
  · rw [← (mem_bucket.mp hg).2, ← (mem_bucket.mp hg').2]
  · simp [classify, hl]
  · simp [classify, hl, classifyStat, hs]
  · rcases hs with h1 | h2
    · simp [classify, hl, classifyStat, hd, h1]
    · simp [classify, hl, classifyStat, hd, h2]
  · have h0 : ¬(s.streak = 0) := by omega
    have h3 : ¬(s.streak < 3) := by omega
    simp [classify, hl, classifyStat, hd, h0, h3]

/-- Claim C1 witness: a concrete store and pool exercising the Learning and
New rows of the table through `classify_partitions`. -/
theorem classify_partitions_witness :
    classify [("ru-zh:a", ⟨Grade.easy, 5, 2⟩)] "ru-zh" cardA = GroupType.learning ∧
    classify [("ru-zh:a", ⟨Grade.easy, 5, 2⟩)] "ru-zh" cardB = GroupType.new :=
  ⟨(classify_partitions [cardA] [("ru-zh:a", ⟨Grade.easy, 5, 2⟩)] "ru-zh").2.2.2.2.1
      cardA ⟨Grade.easy, 5, 2⟩ (by decide) (by decide) (Or.inr rfl),
   (classify_partitions [cardB] [("ru-zh:a", ⟨Grade.easy, 5, 2⟩)] "ru-zh").2.2.1
      cardB (by decide)⟩

/-- Claim C2: every non-empty group that is not a capped New group gets
weight `base + max(0, tick - lastPickedTick) * 2` with bases Hard 100,
Learning 60, Mastered 5, New 40; a group with an empty bucket always gets
weight 0. -/
theorem finalWeight_formula (items : List WordItem) (stats : Stats) (direction : String)
    (capped : Bool) (tick : Int) (lp : GroupTicks) :
    (bucket items stats direction GroupType.hard ≠ [] →
      finalWeight items stats direction capped tick lp GroupType.hard =
        100 + max 0 (tick - lp.hard) * 2) ∧
    (bucket items stats direction GroupType.learning ≠ [] →
      finalWeight items stats direction capped tick lp GroupType.learning =
        60 + max 0 (tick - lp.learning) * 2) ∧
    (bucket items stats direction GroupType.mastered ≠ [] →
      finalWeight items stats direction capped tick lp GroupType.mastered =
        5 + max 0 (tick - lp.mastered) * 2) ∧
    (bucket items stats direction GroupType.new ≠ [] → capped = false →
      finalWeight items stats direction capped tick lp GroupType.new =
        40 + max 0 (tick - lp.new) * 2) ∧
    (∀ g, bucket items stats direction g = [] →
      finalWeight items stats direction capped tick lp g = 0) := by
  refine ⟨fun h => ?_, fun h => ?_, fun h => ?_, fun h hc => ?_, fun g h => ?_⟩
  · simp [finalWeight, h, baseWeight, GroupTicks.get]
  · simp [finalWeight, h, baseWeight, GroupTicks.get]
  · simp [finalWeight, h, baseWeight, GroupTicks.get]
  · simp [finalWeight, h, hc, baseWeight, GroupTicks.get]
  · simp [finalWeight, h]

/-- Claim C2 witness: concrete weights through `finalWeight_formula`: a
non-empty Hard bucket at staleness 4 gets 108, and the empty Mastered
bucket gets 0. -/
theorem finalWeight_formula_witness :
    finalWeight [cardA] [("d:a", ⟨Grade.hard, 5, 0⟩)] "d" false 4 ⟨0, 0, 0, 0⟩
        GroupType.hard = 100 + max 0 ((4 : Int) - 0) * 2 ∧
    finalWeight [cardA] [("d:a", ⟨Grade.hard, 5, 0⟩)] "d" false 4 ⟨0, 0, 0, 0⟩
        GroupType.mastered = 0 :=
  ⟨(finalWeight_formula [cardA] [("d:a", ⟨Grade.hard, 5, 0⟩)] "d" false 4 ⟨0, 0, 0, 0⟩).1
      (by decide),
   (finalWeight_formula [cardA] [("d:a", ⟨Grade.hard, 5, 0⟩)] "d" false 4 ⟨0, 0, 0, 0⟩).2.2.2.2
      GroupType.mastered (by decide)⟩

/-- Claim C3: the workload gate reports capped exactly when
`activeCount >= threshold` with `activeCount = |Hard| + |Learning|`, and
whenever capped holds the New group's final weight is 0 for every tick and
staleness state. -/
theorem isCapped_gate (items : List WordItem) (stats : Stats) (direction : String)
    (threshold : Int) :
    (isCapped items stats direction threshold = true ↔
      threshold ≤ ((bucket items stats direction GroupType.hard).length +
        (bucket items stats direction GroupType.learning).length : Int)) ∧
    (activeLoadCount items stats direction =
      (bucket items stats direction GroupType.hard).length +
        (bucket items stats direction GroupType.learning).length) ∧
    (isCapped items stats direction threshold = true → ∀ (tick : Int) (lp : GroupTicks),
      finalWeight items stats direction (isCapped items stats direction threshold) tick lp
        GroupType.new = 0) := by
  refine ⟨?_, activeLoadCount_eq items stats direction, fun hc tick lp => ?_⟩
  · rw [isCapped, activeLoadCount_eq]
    simp
  · rw [finalWeight]
    split
    · rfl
    · rw [if_pos ⟨rfl, hc⟩]

/-- Claim C3 witness: with a one-item Hard pool and threshold 1 the gate is
capped and the New weight is 0, through `isCapped_gate`. -/
theorem isCapped_gate_witness :
    finalWeight [cardA] [("d:a", ⟨Grade.hard, 5, 0⟩)] "d"
      (isCapped [cardA] [("d:a", ⟨Grade.hard, 5, 0⟩)] "d" 1) 9 ⟨0, 0, 0, 0⟩
      GroupType.new = 0 :=
  (isCapped_gate [cardA] [("d:a", ⟨Grade.hard, 5, 0⟩)] "d" 1).2.2 (by decide) 9 ⟨0, 0, 0, 0⟩

/-- Claim C6: grading hard writes a record with streak 0, grading easy
writes a record with the previous streak plus one (1 when no record
existed, 3 from streak 2), and the written record carries the given grade
and the grading timestamp. -/
theorem gradeStat_transitions (stats : Stats) (key : String) (now : Int) :
    (lookupStat (gradeStat stats key Grade.hard now) key =
      some { difficulty := Grade.hard, lastReviewed := now, streak := 0 }) ∧
    (lookupStat (gradeStat stats key Grade.easy now) key =
      some { difficulty := Grade.easy, lastReviewed := now,
             streak := ((lookupStat stats key).map Stat.streak).getD 0 + 1 }) ∧
    (lookupStat stats key = none →
      lookupStat (gradeStat stats key Grade.easy now) key =
        some { difficulty := Grade.easy, lastReviewed := now, streak := 1 }) ∧
    (∀ d0 t0, lookupStat stats key = some ⟨d0, t0, 2⟩ →
      lookupStat (gradeStat stats key Grade.easy now) key =
        some { difficulty := Grade.easy, lastReviewed := now, streak := 3 }) := by
  refine ⟨?_, ?_, fun h => ?_, fun d0 t0 h => ?_⟩
  · simp [gradeStat, lookupStat_setStat]
  · simp [gradeStat, lookupStat_setStat]
  · simp [gradeStat, lookupStat_setStat, h]
  · simp [gradeStat, lookupStat_setStat, h]

/-- Claim C4: the pick cycle returns null exactly when the total of the four
computed weights is not positive; otherwise, for a draw `r1` in `[0,1)` (so a
pointer `r1 * total` in `[0, total)`), the selected group always has strictly
positive weight, so a weight-0 group is never selected. -/
theorem selectGroup_null_iff (items : List WordItem) (stats : Stats) (direction : String)
    (threshold tick : Int) (lp : GroupTicks) (r1 r2 : ℚ) (h0 : 0 ≤ r1) (h1 : r1 < 1) :
    (selectNextSmartCard items stats direction threshold tick lp r1 r2 = none ↔
      totalWeight items stats direction (isCapped items stats direction threshold) tick lp
        ≤ 0) ∧
    (∀ res, selectNextSmartCard items stats direction threshold tick lp r1 r2 = some res →
      0 < finalWeight items stats direction (isCapped items stats direction threshold)
        tick lp res.group) := by
  by_cases ht : totalWeight items stats direction (isCapped items stats direction threshold)
      tick lp ≤ 0
  · refine ⟨by simp [selectNextSmartCard, ht], fun res hres => ?_⟩
    simp [selectNextSmartCard, ht] at hres
  · refine ⟨by simp [selectNextSmartCard, ht], fun res hres => ?_⟩
    simp only [selectNextSmartCard, if_neg ht, Option.some.injEq] at hres
    rw [← hres]
    exact selected_weight_pos items stats direction _ tick lp r1 h0 h1 (lt_of_not_le ht)

/-- Claim C4 witness: a one-item all-New pool with draw 0: the pick is
non-null and `selectGroup_null_iff` yields positive weight for the selected
group; with an empty pool the pick is null and the total weight is not
positive. -/
theorem selectGroup_null_iff_witness :
    0 < finalWeight [cardA] [] "d" (isCapped [cardA] [] "d" 30) 0 ⟨0, 0, 0, 0⟩
      (PickResult.mk (some cardA) GroupType.new).group ∧
    totalWeight [] [] "d" (isCapped [] [] "d" 30) 0 ⟨0, 0, 0, 0⟩ ≤ 0 :=
  ⟨(selectGroup_null_iff [cardA] [] "d" 30 0 ⟨0, 0, 0, 0⟩ 0 0 (by decide) (by decide)).2
      (PickResult.mk (some cardA) GroupType.new) (by with_unfolding_all decide),
   (selectGroup_null_iff [] [] "d" 30 0 ⟨0, 0, 0, 0⟩ 0 0 (by decide) (by decide)).1.mp
      (by with_unfolding_all decide)⟩

/-- Claim C5: for a non-empty candidate group and a draw `r2` in `[0,1)`, the
item picker returns an element of the first `min(3, |group|)` entries of the
ascending sort by `lastReviewedAt` (so an item outside the oldest prefix is
never returned, and the pick's key is no larger than any key outside the
prefix); each slot of the prefix is reached by some draw, and the draws
reaching slot `i` are exactly the equal-length interval
`[i/poolSize, (i+1)/poolSize)`, the uniform split of `[0,1)`. -/
theorem pickFromGroup_oldest_slice (stats : Stats) (direction : String)
    (candidates : List WordItem) (r2 : ℚ)
    (hne : candidates ≠ []) (h0 : 0 ≤ r2) (h1 : r2 < 1) :
    (∃ it, pickFromGroup stats direction candidates r2 = some it ∧
      it ∈ (sortedByLastReviewed stats direction candidates).take
        (min candidates.length 3) ∧
      ∀ y ∈ (sortedByLastReviewed stats direction candidates).drop
        (min candidates.length 3),
        lastReviewedKey stats direction it ≤ lastReviewedKey stats direction y) ∧
    (∀ i : Nat, i < min candidates.length 3 →
      ∃ r : ℚ, 0 ≤ r ∧ r < 1 ∧
        pickFromGroup stats direction candidates r =
          (sortedByLastReviewed stats direction candidates).get? i) ∧
    (∀ (i : Nat) (r : ℚ), 0 ≤ r →
      (pickIndex r (min candidates.length 3) = i ↔
        ((i : ℚ) ≤ r * ((min candidates.length 3 : Nat) : ℚ) ∧
          r * ((min candidates.length 3 : Nat) : ℚ) < (i : ℚ) + 1))) := by
  have hn : 0 < candidates.length := List.length_pos.mpr hne
  have hps : 0 < min candidates.length 3 := by omega
  have hps' : (0 : ℚ) < ((min candidates.length 3 : Nat) : ℚ) := by exact_mod_cast hps
  refine ⟨?_, fun i hi => ?_, fun i r h0' => pickIndex_eq_iff r _ i h0'⟩
  · obtain ⟨it, hpick, htake, hmem⟩ := pickFromGroup_mem stats direction candidates r2 hne h0 h1
    refine ⟨it, hpick, htake, fun y hy => ?_⟩
    have hsort := sorted_sortedByLastReviewed stats direction candidates
    rw [← List.take_append_drop (min candidates.length 3)
      (sortedByLastReviewed stats direction candidates)] at hsort
    exact (List.pairwise_append.mp hsort).2.2 it htake y hy
  · refine ⟨(i : ℚ) / ((min candidates.length 3 : Nat) : ℚ),
      div_nonneg (by positivity) (le_of_lt hps'), ?_, ?_⟩
    · rw [div_lt_one hps']
      exact_mod_cast hi
    · rw [pickFromGroup]
      have : pickIndex ((i : ℚ) / ((min candidates.length 3 : Nat) : ℚ))
          (min candidates.length 3) = i := by
        rw [pickIndex_eq_iff _ _ _ (div_nonneg (by positivity) (le_of_lt hps'))]
        rw [div_mul_cancel₀ _ (ne_of_gt hps')]
        constructor
        · exact le_refl _
        · linarith
      rw [this]

/-- Claim C5 witness: two never-reviewed items, draw 0: the pick through
`pickFromGroup_oldest_slice` lands in the 2-element oldest prefix. -/
theorem pickFromGroup_oldest_slice_witness :
    ∃ it, pickFromGroup [] "d" [cardA, cardB] 0 = some it ∧
      it ∈ (sortedByLastReviewed [] "d" [cardA, cardB]).take
        (min (List.length [cardA, cardB]) 3) ∧
      ∀ y ∈ (sortedByLastReviewed [] "d" [cardA, cardB]).drop
        (min (List.length [cardA, cardB]) 3),
        lastReviewedKey [] "d" it ≤ lastReviewedKey [] "d" y :=
  (pickFromGroup_oldest_slice [] "d" [cardA, cardB] 0 (by simp)
    (by decide) (by decide)).1

/-- Claim C10: whenever the smart pick cycle returns a non-null result (for
draws in `[0,1)`), the selected group's bucket is non-empty, the random index
is within bounds of the oldest prefix, and the returned item slot holds a
defined item that belongs to the selected bucket and hence to the input
pool. -/
theorem smartPick_defined (items : List WordItem) (stats : Stats) (direction : String)
    (threshold tick : Int) (lp : GroupTicks) (r1 r2 : ℚ)
    (h0 : 0 ≤ r1) (h1 : r1 < 1) (h2 : 0 ≤ r2) (h3 : r2 < 1) :
    ∀ res, selectNextSmartCard items stats direction threshold tick lp r1 r2 = some res →
      bucket items stats direction res.group ≠ [] ∧
      pickIndex r2 (min (bucket items stats direction res.group).length 3) <
        min (bucket items stats direction res.group).length 3 ∧
      ∃ it, res.item = some it ∧ it ∈ bucket items stats direction res.group ∧
        it ∈ items := by
  intro res hres
  by_cases ht : totalWeight items stats direction (isCapped items stats direction threshold)
      tick lp ≤ 0
  · simp [selectNextSmartCard, ht] at hres
  · simp only [selectNextSmartCard, if_neg ht, Option.some.injEq] at hres
    have hw := selected_weight_pos items stats direction
      (isCapped items stats direction threshold) tick lp r1 h0 h1 (lt_of_not_le ht)
    have hne : bucket items stats direction res.group ≠ [] := by
      rw [← hres]
      exact finalWeight_pos_bucket_ne hw
    have hn : 0 < (bucket items stats direction res.group).length :=
      List.length_pos.mpr hne
    refine ⟨hne, pickIndex_lt r2 _ h2 h3 (by omega), ?_⟩
    obtain ⟨it, hpick, _, hmem⟩ :=
      pickFromGroup_mem stats direction (bucket items stats direction res.group) r2 hne h2 h3
    refine ⟨it, ?_, hmem, (mem_bucket.mp hmem).1⟩
    rw [← hres]
    dsimp only
    rw [← hres] at hpick
    exact hpick

/-- Claim C10 witness: a one-item all-New pool with draws 0 through
`smartPick_defined`: the New bucket is non-empty, the index is in bounds and
the returned slot holds the pool's item. -/
theorem smartPick_defined_witness :
    bucket [cardA] [] "d" (PickResult.mk (some cardA) GroupType.new).group ≠ [] ∧
    pickIndex 0 (min (bucket [cardA] [] "d"
      (PickResult.mk (some cardA) GroupType.new).group).length 3) <
      min (bucket [cardA] [] "d" (PickResult.mk (some cardA) GroupType.new).group).length 3 ∧
    ∃ it, (PickResult.mk (some cardA) GroupType.new).item = some it ∧
      it ∈ bucket [cardA] [] "d" (PickResult.mk (some cardA) GroupType.new).group ∧
      it ∈ [cardA] :=
  smartPick_defined [cardA] [] "d" 30 0 ⟨0, 0, 0, 0⟩ 0 0
    (by decide) (by decide) (by decide) (by decide)
    (PickResult.mk (some cardA) GroupType.new) (by with_unfolding_all decide)

/-- The 100-item all-New pool of the session-limit scenario. -/
def items100 : List WordItem := (List.range 100).map (fun i => ⟨Nat.repr i, ""⟩)

/-- The session-limit scenario configuration: threshold 30, limit 5. -/
def cfg100 : Config := ⟨items100, "ru-zh", 30, some 5⟩

/-- The session-limit scenario run: initialize on an empty store, then grade
easy n times with draws 0 and grading timestamps 1, 2, 3, ... -/
def runC7 : Nat → SessionState
  | 0 => initSession cfg100 [] 0 0
  | n + 1 => handleNext cfg100 (some Grade.easy) ((n : Int) + 1) 0 0 (runC7 n)

/-- Claim C7: with a numeric session limit, the session transitions to
Finished as soon as the reviewed counter reaches the limit, and the
limit-reached branch returns before the tick advance and pick cycle (tick,
current card and last-picked ticks unchanged); concretely, with limit 5 and
a pool of 100 all-New items, after 5 grades the session is finished with
reviewed count 5, the 5th grade ran no pick cycle, and the session was not
finished after 4 grades. -/
theorem session_limit_finishes :
    (∀ (cfg : Config) (d : Option Grade) (now : Int) (r1 r2 : ℚ) (s : SessionState)
      (card : WordItem) (l : Int),
      s.currentCard = some card → cfg.limit = some l →
      l ≤ ((s.reviewedCount : Int) + 1) →
      (handleNext cfg d now r1 r2 s).sessionFinished = true ∧
      (handleNext cfg d now r1 r2 s).reviewedCount = s.reviewedCount + 1 ∧
      (handleNext cfg d now r1 r2 s).tick = s.tick ∧
      (handleNext cfg d now r1 r2 s).currentCard = s.currentCard ∧
      (handleNext cfg d now r1 r2 s).groupLastPicked = s.groupLastPicked) ∧
    ((runC7 5).sessionFinished = true ∧ (runC7 5).reviewedCount = 5 ∧
      (runC7 5).tick = (runC7 4).tick ∧ (runC7 5).currentCard = (runC7 4).currentCard ∧
      (runC7 4).sessionFinished = false) := by
  constructor
  · intro cfg d now r1 r2 s card l hc hl hle
    have hlr : limitReached cfg.limit (s.reviewedCount + 1) = true := by
      rw [hl, limitReached]
      simpa using hle
    simp [handleNext, hc, hlr]
  · with_unfolding_all decide

/-- Claim C7 witness: the limit-reached branch of `session_limit_finishes`
applied at a concrete state already at count 4 with limit 5. -/
theorem session_limit_finishes_witness :
    (handleNext ⟨[cardA], "d", 30, some 5⟩ (some Grade.easy) 9 0 0
      ⟨some cardA, 4, false, false, 7, ⟨1, 2, 3, 4⟩, []⟩).sessionFinished = true ∧
    (handleNext ⟨[cardA], "d", 30, some 5⟩ (some Grade.easy) 9 0 0
      ⟨some cardA, 4, false, false, 7, ⟨1, 2, 3, 4⟩, []⟩).reviewedCount = 4 + 1 ∧
    (handleNext ⟨[cardA], "d", 30, some 5⟩ (some Grade.easy) 9 0 0
      ⟨some cardA, 4, false, false, 7, ⟨1, 2, 3, 4⟩, []⟩).tick = 7 ∧
    (handleNext ⟨[cardA], "d", 30, some 5⟩ (some Grade.easy) 9 0 0
      ⟨some cardA, 4, false, false, 7, ⟨1, 2, 3, 4⟩, []⟩).currentCard = some cardA ∧
    (handleNext ⟨[cardA], "d", 30, some 5⟩ (some Grade.easy) 9 0 0
      ⟨some cardA, 4, false, false, 7, ⟨1, 2, 3, 4⟩, []⟩).groupLastPicked = ⟨1, 2, 3, 4⟩ :=
  session_limit_finishes.1 ⟨[cardA], "d", 30, some 5⟩ (some Grade.easy) 9 0 0
    ⟨some cardA, 4, false, false, 7, ⟨1, 2, 3, 4⟩, []⟩ cardA 5 rfl rfl (by decide)

/-- Claim C8: if the pick cycle performed at session initialization returns
null — which happens in particular for an empty item pool — the controller
shows the Finished screen immediately (`currentCard` stays null, which the
render treats as finished) with a reviewed count of zero. -/
theorem init_null_pick_finished (cfg : Config) (stats : Stats) (r1 r2 : ℚ) :
    (cfg.items = [] →
      selectNextSmartCard cfg.items stats cfg.direction cfg.learningThreshold 0
        ⟨0, 0, 0, 0⟩ r1 r2 = none) ∧
    (selectNextSmartCard cfg.items stats cfg.direction cfg.learningThreshold 0
        ⟨0, 0, 0, 0⟩ r1 r2 = none →
      showsFinished (initSession cfg stats r1 r2) = true ∧
      (initSession cfg stats r1 r2).reviewedCount = 0 ∧
      (initSession cfg stats r1 r2).currentCard = none) := by
  constructor
  · intro h
    simp [selectNextSmartCard, totalWeight, finalWeight, bucket, h]
  · intro h
    simp [initSession, h, showsFinished]

/-- Claim C8 witness: the empty pool, through both parts of
`init_null_pick_finished`. -/
theorem init_null_pick_finished_witness :
    showsFinished (initSession ⟨[], "d", 30, some 5⟩ [] 0 0) = true ∧
    (initSession ⟨[], "d", 30, some 5⟩ [] 0 0).reviewedCount = 0 ∧
    (initSession ⟨[], "d", 30, some 5⟩ [] 0 0).currentCard = none :=
  (init_null_pick_finished ⟨[], "d", 30, some 5⟩ [] 0 0).2
    ((init_null_pick_finished ⟨[], "d", 30, some 5⟩ [] 0 0).1 rfl)

/-- Claim C9: advancing past a card with no grading decision (skip) leaves
the performance store untouched — the stats object is unchanged, so no key's
record is created or updated — while the reviewed counter still increments
by one (and hence counts toward the session limit). -/
theorem skip_preserves_store (cfg : Config) (now : Int) (r1 r2 : ℚ)
    (s : SessionState) (card : WordItem) (h : s.currentCard = some card) :
    (handleNext cfg none now r1 r2 s).stats = s.stats ∧
    (∀ k, lookupStat (handleNext cfg none now r1 r2 s).stats k = lookupStat s.stats k) ∧
    (handleNext cfg none now r1 r2 s).reviewedCount = s.reviewedCount + 1 := by
  have hmain : (handleNext cfg none now r1 r2 s).stats = s.stats ∧
      (handleNext cfg none now r1 r2 s).reviewedCount = s.reviewedCount + 1 := by
    simp only [handleNext, h]
    split
    · exact ⟨rfl, rfl⟩
    · split
      · exact ⟨rfl, rfl⟩
      · exact ⟨rfl, rfl⟩
  exact ⟨hmain.1, fun k => by rw [hmain.1], hmain.2⟩

/-- Claim C9 witness: a one-card session, skipping without a grade through
`skip_preserves_store`: the store stays empty and the counter becomes 1. -/
theorem skip_preserves_store_witness :
    (handleNext ⟨[cardA], "d", 30, some 5⟩ none 7 0 0
      ⟨some cardA, 0, false, false, 0, ⟨0, 0, 0, 0⟩, []⟩).stats = [] ∧
    (∀ k, lookupStat (handleNext ⟨[cardA], "d", 30, some 5⟩ none 7 0 0
      ⟨some cardA, 0, false, false, 0, ⟨0, 0, 0, 0⟩, []⟩).stats k = lookupStat [] k) ∧
    (handleNext ⟨[cardA], "d", 30, some 5⟩ none 7 0 0
      ⟨some cardA, 0, false, false, 0, ⟨0, 0, 0, 0⟩, []⟩).reviewedCount = 0 + 1 :=
  skip_preserves_store ⟨[cardA], "d", 30, some 5⟩ 7 0 0
    ⟨some cardA, 0, false, false, 0, ⟨0, 0, 0, 0⟩, []⟩ cardA rfl

/-- Claim C6 witness: grading easy at streak 2 yields streak 3 and grading
hard resets to 0, through `gradeStat_transitions` at a concrete store. -/
theorem gradeStat_transitions_witness :
    lookupStat (gradeStat [("d:a", ⟨Grade.easy, 5, 2⟩)] "d:a" Grade.easy 9) "d:a" =
      some { difficulty := Grade.easy, lastReviewed := 9, streak := 3 } ∧
    lookupStat (gradeStat [("d:a", ⟨Grade.easy, 5, 2⟩)] "d:a" Grade.hard 9) "d:a" =
      some { difficulty := Grade.hard, lastReviewed := 9, streak := 0 } :=
  ⟨(gradeStat_transitions [("d:a", ⟨Grade.easy, 5, 2⟩)] "d:a" 9).2.2.2
      Grade.easy 5 (by decide),
   (gradeStat_transitions [("d:a", ⟨Grade.easy, 5, 2⟩)] "d:a" 9).1⟩

end RuVocab
